import Mathlib

/-!
Verification development for the cluster-analysis pipeline
(src/scripts/cluster_analysis.py).

The Python source is shallowly embedded as follows.

* Float values stored in metrics dictionaries, embedding coordinates and
  tag counts are modelled as exact rationals; the silhouette computation,
  which takes real square roots, is modelled in exact real arithmetic.
* The pandas data frame is a list of ConversationRecord values; the reduced
  embedding matrix is a list of rows (lists of rationals) aligned with it
  by position; an HDBSCAN labeling is a list of integers with -1 as the
  noise sentinel.
* Python dictionaries keyed in insertion order are modelled as association
  lists with an update-or-append write.
* Exceptions are modelled with Except; a function that can raise returns
  an Except value.
* The call to numpy argsort (whose default quicksort kind gives no
  guarantee on the relative order of equal keys) is modelled relationally:
  the functions that consume its result take the produced index
  permutation as a parameter, and theorems quantify over every permutation
  that validly sorts the distances.
-/

/-- Embedded row of the conversations parquet snapshot: conversation id,
first message text and the list of free-text tags. The high-dimensional
embedding vector is kept separately in the reduced matrix. -/
structure ConversationRecord where
  conversation_id : String
  first_message : String
  tags : List String
deriving DecidableEq, Repr, Inhabited

/-- Squared Euclidean distance between two coordinate rows, the rational
core of every distance computed by the script. -/
def sqDist (x y : List ℚ) : ℚ :=
  ((x.zip y).map (fun p => (p.1 - p.2) ^ 2)).sum

/-- Euclidean distance as computed by sklearn euclidean_distances: the real
square root of the squared distance. -/
noncomputable def euclideanDist (x y : List ℚ) : ℝ :=
  Real.sqrt (sqDist x y)

/-- Rows of the reduced matrix that belong to cluster c, in original row
order; this is the mask-indexing embeddings[labels == c] of the source. -/
def clusterRows (ls : List ℤ) (emb : List (List ℚ)) (c : ℤ) : List (List ℚ) :=
  ((emb.zip ls).filter (fun p => p.2 = c)).map (fun p => p.1)

/-- Data-frame rows that belong to cluster c, in original row order; this
is the mask-indexing df[labels == c] of the source. -/
def clusterRecords (df : List ConversationRecord) (ls : List ℤ) (c : ℤ) :
    List ConversationRecord :=
  ((df.zip ls).filter (fun p => p.2 = c)).map (fun p => p.1)

/-- Componentwise mean of a list of rows, the numpy mean(axis=0). -/
def vecMean (rows : List (List ℚ)) : List ℚ :=
  match rows with
  | [] => []
  | r :: _ =>
    (List.range r.length).map
      (fun j => ((rows.map (fun row => row.getD j 0)).sum) / rows.length)

/-- Centroid of cluster c: the mean of its rows in the reduced space. -/
def clusterCentroid (ls : List ℤ) (emb : List (List ℚ)) (c : ℤ) : List ℚ :=
  vecMean (clusterRows ls emb c)

/-- Sorted list of the distinct non-noise cluster ids, the expression
sorted(set(labels[labels != -1])) of the source. -/
def sortedNonNoise (ls : List ℤ) : List ℤ :=
  List.insertionSort (· ≤ ·) ((ls.filter (fun x => x ≠ -1)).dedup)

/-- Occurrence counting in dictionary insertion order: bump the count of a
key if present, otherwise append it with count one.  Models building a
Python dict (or Counter) of counts by iteration. -/
def bumpCount [DecidableEq α] : List (α × ℕ) → α → List (α × ℕ)
  | [], t => [(t, 1)]
  | (s, n) :: rest, t =>
    if s = t then (s, n + 1) :: rest else (s, n) :: bumpCount rest t

/-- Count the occurrences of each element, keys listed in order of first
occurrence, as a Python dict of counts built by iteration would be. -/
def countOcc [DecidableEq α] (l : List α) : List (α × ℕ) :=
  l.foldl bumpCount []

/-- List of the distinct elements of l in order of first occurrence. -/
def firstDedup [DecidableEq α] : List α → List α
  | [] => []
  | x :: xs => x :: (firstDedup xs).filter (fun y => y ≠ x)

/-- Update-or-append write into an association list, modelling assignment
into a Python dict. -/
def upsert [DecidableEq α] (acc : List (α × β)) (k : α) (v : β) : List (α × β) :=
  if acc.any (fun p => p.1 = k) then
    acc.map (fun p => if p.1 = k then (k, v) else p)
  else acc ++ [(k, v)]

example : sortedNonNoise [2, -1, 0, 2, 1] = [0, 1, 2] := by decide

example : countOcc ["b", "a", "b"] = [("b", 2), ("a", 1)] := by decide

example : firstDedup ["b", "a", "b"] = ["b", "a"] := by decide

example : vecMean [[0, 0], [2, 4]] = [1, 2] := by
  norm_num [vecMean, List.range_succ]

/-! ## Quality metrics (calculate_metrics) and quality gates -/

/-- Metrics dictionary produced per trial.  The score type is a parameter:
the evaluator produces the mathematically exact real silhouette, while the
gate check and the search loop consume the stored (rational) float value. -/
structure QualityMetrics (α : Type) where
  silhouette_score : α
  num_clusters : ℕ
  noise_points : ℕ
  noise_pct : ℚ
  largest_cluster_pct : ℚ
  cluster_sizes : List (ℤ × ℕ)
deriving DecidableEq, Repr, Inhabited

/-- Minimum of a list of reals, zero for the empty list (only used on
nonempty lists). -/
noncomputable def listMinD : List ℝ → ℝ
  | [] => 0
  | x :: xs => xs.foldl min x

/-- Silhouette coefficient of sample i, following sklearn silhouette_samples:
the mean intra-cluster distance a against the smallest mean distance b to
another cluster, (b - a) / max a b; samples in singleton clusters get 0
(sklearn nan_to_num on the 0/0 division). -/
noncomputable def silSample (pts : List (List ℚ)) (ls : List ℤ) (i : ℕ) : ℝ :=
  let c := ls.getD i 0
  let xi := pts.getD i []
  let sameOther := (((pts.zip ls).eraseIdx i).filter (fun p => p.2 = c)).map (fun p => p.1)
  if sameOther.length = 0 then 0
  else
    let a := (sameOther.map (fun y => euclideanDist xi y)).sum / sameOther.length
    let bs := (ls.dedup.filter (fun c2 => c2 ≠ c)).map (fun c2 =>
      let rows := ((pts.zip ls).filter (fun p => p.2 = c2)).map (fun p => p.1)
      (rows.map (fun y => euclideanDist xi y)).sum / rows.length)
    let b := listMinD bs
    (b - a) / max a b

/-- Mean silhouette coefficient over all samples. -/
noncomputable def meanSilhouette (pts : List (List ℚ)) (ls : List ℤ) : ℝ :=
  ((List.range pts.length).map (silSample pts ls)).sum / pts.length

/-- Error message raised by sklearn silhouette_score when the number of
distinct labels is outside the valid range 2 .. n_samples - 1. -/
def silErrMsg : String :=
  "Number of labels is not valid. Valid values are 2 to n_samples - 1 (inclusive)"

/-- Models sklearn.metrics.silhouette_score: validates that the number of
distinct labels lies in 2 .. n_samples - 1 (raising a ValueError otherwise,
modelled as Except.error) and then returns the mean silhouette. -/
noncomputable def silhouette_score (pts : List (List ℚ)) (ls : List ℤ) :
    Except String ℝ :=
  let nLabels := ls.dedup.length
  if 2 ≤ nLabels ∧ nLabels ≤ pts.length - 1 then Except.ok (meanSilhouette pts ls)
  else Except.error silErrMsg

/-- Embeds calculate_metrics of the source: cluster count, noise count and
fraction, silhouette over the non-noise points (0.0 when at most one
non-noise point or at most one cluster remains), largest-cluster fraction
and the per-cluster size histogram.  The sklearn call can raise, so the
result is an Except value. -/
noncomputable def calculate_metrics (emb : List (List ℚ)) (ls : List ℤ) :
    Except String (QualityMetrics ℝ) :=
  let n_clusters : ℕ := ls.dedup.length - (if (-1 : ℤ) ∈ ls then 1 else 0)
  let n_noise : ℕ := ls.count (-1)
  let maskedPts := ((emb.zip ls).filter (fun p => p.2 ≠ -1)).map (fun p => p.1)
  let maskedLs := ls.filter (fun x => x ≠ -1)
  let silE : Except String ℝ :=
    if 1 < maskedLs.length ∧ 1 < n_clusters then silhouette_score maskedPts maskedLs
    else Except.ok 0
  match silE with
  | Except.error e => Except.error e
  | Except.ok sil =>
    let counts := (sortedNonNoise ls).map (fun c => (c, ls.count c))
    let largest : ℕ := (counts.map (fun p => p.2)).foldr max 0
    Except.ok
      { silhouette_score := sil
        num_clusters := n_clusters
        noise_points := n_noise
        noise_pct := (n_noise : ℚ) / (ls.length : ℚ) * 100
        largest_cluster_pct := (largest : ℚ) / (ls.length : ℚ) * 100
        cluster_sizes := counts }

/-- Round a rational to the nearest integer, ties to even, the rounding of
Python float formatting. -/
def roundHalfEven (q : ℚ) : ℤ :=
  let f : ℤ := ⌊q⌋
  let r : ℚ := q - f
  if r < 1/2 then f
  else if 1/2 < r then f + 1
  else if f % 2 = 0 then f else f + 1

/-- Left-pad a digit string with zeros up to length d. -/
def natPad (s : String) (d : ℕ) : String :=
  if s.length < d then String.mk (List.replicate (d - s.length) '0') ++ s else s

/-- Fixed-point decimal rendering of a rational with d fractional digits,
modelling Python .3f and .1f float formatting. -/
def formatFixed (d : ℕ) (q : ℚ) : String :=
  let scaled : ℤ := roundHalfEven (q * (10 : ℚ) ^ d)
  let a : ℕ := scaled.natAbs
  (if scaled < 0 then "-" else "") ++ toString (a / 10 ^ d) ++
    (if d = 0 then "" else "." ++ natPad (toString (a % 10 ^ d)) d)

/-- Violated-gate description for the silhouette gate. -/
def silhouetteGateMsg (s : ℚ) : String :=
  "silhouette_score " ++ formatFixed 3 s ++ " < 0.3"

/-- Violated-gate description for the largest-cluster gate. -/
def largestGateMsg (l : ℚ) : String :=
  "largest_cluster " ++ formatFixed 1 l ++ "% > 40%"

/-- Violated-gate description for the noise gate. -/
def noiseGateMsg (n : ℚ) : String :=
  "noise " ++ formatFixed 1 n ++ "% > 20%"

/-- Embeds check_quality_gates of the source: collect one description per
violated gate and pass iff the list is empty. -/
def check_quality_gates (m : QualityMetrics ℚ) : Bool × List String :=
  let issues :=
    (if m.silhouette_score < 3/10 then [silhouetteGateMsg m.silhouette_score] else []) ++
    (if 40 < m.largest_cluster_pct then [largestGateMsg m.largest_cluster_pct] else []) ++
    (if 20 < m.noise_pct then [noiseGateMsg m.noise_pct] else [])
  (issues.length == 0, issues)

example : formatFixed 3 (1/4) = "0.250" := by
  norm_num [formatFixed, roundHalfEven, natPad]
  decide

/-- Number of non-noise points of a labeling (claim-side notion). -/
def nonNoiseCount (ls : List ℤ) : ℕ := (ls.filter (fun x => x ≠ -1)).length

/-- Number of distinct non-noise clusters of a labeling (claim-side notion). -/
def nonNoiseClusterCount (ls : List ℤ) : ℕ :=
  (ls.filter (fun x => x ≠ -1)).dedup.length

/-- Rows of the matrix belonging to non-noise points, in order. -/
def maskedRows (emb : List (List ℚ)) (ls : List ℤ) : List (List ℚ) :=
  ((emb.zip ls).filter (fun q => q.2 ≠ -1)).map (fun q => q.1)

/-- Non-noise entries of the labeling, in order. -/
def maskedLabels (ls : List ℤ) : List ℤ := ls.filter (fun x => x ≠ -1)

theorem dedup_filter_ne_length (ls : List ℤ) :
    ((ls.filter (fun x => x ≠ -1)).dedup).length =
      ls.dedup.length - (if (-1 : ℤ) ∈ ls then 1 else 0) := by
  rw [← List.card_toFinset, ← List.card_toFinset]
  have h1 : (ls.filter (fun x => x ≠ -1)).toFinset = ls.toFinset.erase (-1) := by
    ext a
    simp only [List.mem_toFinset, List.mem_filter, Finset.mem_erase, decide_eq_true_eq]
    tauto
  rw [h1]
  by_cases hm : (-1 : ℤ) ∈ ls
  · rw [if_pos hm, Finset.card_erase_of_mem (List.mem_toFinset.mpr hm)]
  · rw [if_neg hm, Finset.erase_eq_of_not_mem (fun hc => hm (List.mem_toFinset.mp hc))]
    simp

theorem length_masked {α β : Type} (p : β → Bool) (xs : List α) (ys : List β)
    (h : xs.length = ys.length) :
    ((xs.zip ys).filter (fun q => p q.2)).length = (ys.filter p).length := by
  induction xs generalizing ys with
  | nil => cases ys with
    | nil => simp
    | cons y ys => simp at h
  | cons x xs ih =>
    cases ys with
    | nil => simp at h
    | cons y ys =>
      simp only [List.zip_cons_cons, List.filter_cons]
      by_cases hp : p y
      · simp only [hp, if_true]
        simp only [List.length_cons]
        rw [ih ys (by simpa using h)]
      · simp only [hp, if_false]
        exact ih ys (by simpa using h)

theorem nonNoiseClusterCount_le_count (ls : List ℤ) :
    nonNoiseClusterCount ls ≤ nonNoiseCount ls :=
  List.Sublist.length_le (List.dedup_sublist _)

/-- C2 counterexample: on two non-noise points split into two clusters the
guard of calculate_metrics is passed (2 points, 2 clusters) but the sklearn
silhouette call raises, so the evaluator fails instead of reporting 0.0. -/
theorem calculate_metrics_fails_on_two_singletons :
    calculate_metrics [[0], [1]] [0, 1] = Except.error silErrMsg := by
  rfl

/-- C2 (amended): the evaluator reports silhouette 0.0 whenever fewer than
2 non-noise points or fewer than 2 non-noise clusters remain, and otherwise
computes the real cohesion score over the non-noise points only - except
that it fails (the sklearn validation raises) when the number of non-noise
clusters exceeds the number of non-noise points minus one. -/
theorem calculate_metrics_regimes (emb : List (List ℚ)) (ls : List ℤ)
    (hlen : emb.length = ls.length) :
    ((nonNoiseCount ls ≤ 1 ∨ nonNoiseClusterCount ls ≤ 1) →
      ∃ m, calculate_metrics emb ls = Except.ok m ∧ m.silhouette_score = 0)
    ∧ (2 ≤ nonNoiseClusterCount ls → nonNoiseClusterCount ls + 1 ≤ nonNoiseCount ls →
      ∃ m, calculate_metrics emb ls = Except.ok m ∧
        m.silhouette_score = meanSilhouette (maskedRows emb ls) (maskedLabels ls))
    ∧ (2 ≤ nonNoiseClusterCount ls → nonNoiseCount ls ≤ nonNoiseClusterCount ls →
      calculate_metrics emb ls = Except.error silErrMsg) := by
  have hC : ls.dedup.length - (if (-1 : ℤ) ∈ ls then 1 else 0) = nonNoiseClusterCount ls :=
    (dedup_filter_ne_length ls).symm
  have e1 : (ls.filter (fun x => x ≠ -1)).length = nonNoiseCount ls := rfl
  have e2 : (ls.filter (fun x => x ≠ -1)).dedup.length = nonNoiseClusterCount ls := rfl
  have hM : (((emb.zip ls).filter (fun q => q.2 ≠ -1)).map (fun q => q.1)).length
      = nonNoiseCount ls := by
    rw [List.length_map]
    exact length_masked (fun b => decide (b ≠ -1)) emb ls hlen
  have hCM := nonNoiseClusterCount_le_count ls
  refine ⟨?_, ?_, ?_⟩
  · intro h
    have hcond : ¬(1 < (ls.filter (fun x => x ≠ -1)).length ∧
        1 < ls.dedup.length - (if (-1 : ℤ) ∈ ls then 1 else 0)) := by
      rw [hC, e1]
      omega
    simp only [calculate_metrics]
    rw [if_neg hcond]
    exact ⟨_, rfl, rfl⟩
  · intro h2 h3
    have hcond : (1 < (ls.filter (fun x => x ≠ -1)).length ∧
        1 < ls.dedup.length - (if (-1 : ℤ) ∈ ls then 1 else 0)) := by
      rw [hC, e1]
      omega
    simp only [calculate_metrics]
    rw [if_pos hcond]
    simp only [silhouette_score]
    have hval : (2 ≤ (ls.filter (fun x => x ≠ -1)).dedup.length ∧
        (ls.filter (fun x => x ≠ -1)).dedup.length ≤
          (((emb.zip ls).filter (fun q => q.2 ≠ -1)).map (fun q => q.1)).length - 1) := by
      rw [hM, e2]
      omega
    rw [if_pos hval]
    exact ⟨_, rfl, rfl⟩
  · intro h2 h3
    have hcond : (1 < (ls.filter (fun x => x ≠ -1)).length ∧
        1 < ls.dedup.length - (if (-1 : ℤ) ∈ ls then 1 else 0)) := by
      rw [hC, e1]
      omega
    simp only [calculate_metrics]
    rw [if_pos hcond]
    simp only [silhouette_score]
    have hval : ¬(2 ≤ (ls.filter (fun x => x ≠ -1)).dedup.length ∧
        (ls.filter (fun x => x ≠ -1)).dedup.length ≤
          (((emb.zip ls).filter (fun q => q.2 ≠ -1)).map (fun q => q.1)).length - 1) := by
      rw [hM, e2]
      omega
    rw [if_neg hval]

/-- Witness for calculate_metrics_regimes at two 2-point clusters. -/
theorem calculate_metrics_regimes_witness :
    (([[0], [1], [2], [3]] : List (List ℚ)).length = ([0, 0, 1, 1] : List ℤ).length) ∧
    (((nonNoiseCount [0, 0, 1, 1] ≤ 1 ∨ nonNoiseClusterCount [0, 0, 1, 1] ≤ 1) →
      ∃ m, calculate_metrics [[0], [1], [2], [3]] [0, 0, 1, 1] = Except.ok m ∧
        m.silhouette_score = 0)
    ∧ (2 ≤ nonNoiseClusterCount [0, 0, 1, 1] →
       nonNoiseClusterCount [0, 0, 1, 1] + 1 ≤ nonNoiseCount [0, 0, 1, 1] →
      ∃ m, calculate_metrics [[0], [1], [2], [3]] [0, 0, 1, 1] = Except.ok m ∧
        m.silhouette_score =
          meanSilhouette (maskedRows [[0], [1], [2], [3]] [0, 0, 1, 1])
            (maskedLabels [0, 0, 1, 1]))
    ∧ (2 ≤ nonNoiseClusterCount [0, 0, 1, 1] →
       nonNoiseCount [0, 0, 1, 1] ≤ nonNoiseClusterCount [0, 0, 1, 1] →
      calculate_metrics [[0], [1], [2], [3]] [0, 0, 1, 1] = Except.error silErrMsg)) :=
  ⟨by decide, calculate_metrics_regimes _ _ (by decide)⟩

/-- C4: the quality gate passes exactly when the silhouette is at least 0.3,
the largest-cluster fraction is at most 40 percent and the noise fraction is
at most 20 percent, and the issue list carries one description per violated
gate, stating the metric, its formatted value and the violated threshold. -/
theorem check_quality_gates_spec (m : QualityMetrics ℚ) :
    ((check_quality_gates m).1 = true ↔
      (3/10 ≤ m.silhouette_score ∧ m.largest_cluster_pct ≤ 40 ∧ m.noise_pct ≤ 20))
    ∧ (check_quality_gates m).2 =
      (if m.silhouette_score < 3/10 then
        ["silhouette_score " ++ formatFixed 3 m.silhouette_score ++ " < 0.3"] else []) ++
      (if 40 < m.largest_cluster_pct then
        ["largest_cluster " ++ formatFixed 1 m.largest_cluster_pct ++ "% > 40%"] else []) ++
      (if 20 < m.noise_pct then
        ["noise " ++ formatFixed 1 m.noise_pct ++ "% > 20%"] else []) := by
  constructor
  · have hiff : ((check_quality_gates m).1 = true ↔
        ¬(m.silhouette_score < 3/10) ∧ ¬(40 < m.largest_cluster_pct) ∧
          ¬(20 < m.noise_pct)) := by
      unfold check_quality_gates
      by_cases h1 : m.silhouette_score < 3/10 <;>
        by_cases h2 : 40 < m.largest_cluster_pct <;>
          by_cases h3 : 20 < m.noise_pct <;>
            simp [h1, h2, h3]
    rw [hiff, not_lt, not_lt, not_lt]
  · rfl

/-! ## Tag distribution per cluster (get_tag_distribution_per_cluster) -/

/-- Per-cluster tag statistics as assembled by the source. -/
structure TagStats where
  top_tags : List (String × ℕ)
  tag_coverage : ℚ
  unique_tags : ℕ
  cluster_size : ℕ
deriving DecidableEq, Repr, Inhabited

/-- Python sorted(items, key=count, reverse=True): stable descending sort
by count; Mathlib insertion sort is stable, matching Python list sorting. -/
def sortTagsDesc (l : List (String × ℕ)) : List (String × ℕ) :=
  List.insertionSort (fun a b => b.2 ≤ a.2) l

/-- Per-cluster body of get_tag_distribution_per_cluster in the source. -/
def tagStatsOf (df : List ConversationRecord) (ls : List ℤ) (c : ℤ) : TagStats :=
  let cdf := clusterRecords df ls c
  let all_tags := (cdf.map (fun r => r.tags)).flatten
  let tag_counts := countOcc all_tags
  let sorted_tags := sortTagsDesc tag_counts
  let top_tag_count := (sorted_tags.headD ("", 0)).2
  { top_tags := sorted_tags.take 10
    tag_coverage :=
      if 0 < cdf.length then (top_tag_count : ℚ) / (cdf.length : ℚ) else 0
    unique_tags := tag_counts.length
    cluster_size := cdf.length }

/-- Embeds get_tag_distribution_per_cluster of the source: for every
non-noise cluster, flatten the member tags, count occurrences, sort
descending by count, record the top 10 tags, the coverage of the single
most frequent tag, the number of distinct tags and the cluster size.
The helper get_tags_from_row of the source only normalises numpy values
to plain lists, which the embedding represents directly as lists. -/
def get_tag_distribution_per_cluster (df : List ConversationRecord) (ls : List ℤ) :
    List (ℤ × TagStats) :=
  (sortedNonNoise ls).map (fun c => (c, tagStatsOf df ls c))

/-- Lexicographic code-point comparison of character lists, the Python
string less-than used to express ascending-by-name ordering. -/
def charListLt : List Char → List Char → Bool
  | [], [] => false
  | [], _ :: _ => true
  | _ :: _, [] => false
  | a :: as, b :: bs =>
    if a.val < b.val then true else if b.val < a.val then false else charListLt as bs

/-- Python string less-than (code-point lexicographic order). -/
def strLtB (s t : String) : Bool := charListLt s.toList t.toList

theorem foldr_max_le (l : List ℕ) (b : ℕ) (h : ∀ x ∈ l, x ≤ b) : l.foldr max 0 ≤ b := by
  induction l with
  | nil => simp
  | cons x xs ih =>
    simp only [List.foldr_cons, max_le_iff]
    exact ⟨h x (by simp), ih (fun y hy => h y (by simp [hy]))⟩

theorem le_foldr_max (l : List ℕ) (x : ℕ) (hx : x ∈ l) : x ≤ l.foldr max 0 := by
  induction l with
  | nil => simp at hx
  | cons y ys ih =>
    rcases List.mem_cons.mp hx with rfl | hmem
    · simp only [List.foldr_cons]
      exact le_max_left _ _
    · simp only [List.foldr_cons]
      exact le_trans (ih hmem) (le_max_right _ _)

theorem lookup_map_self [DecidableEq α] (l : List α) (f : α → β) (c : α)
    (hc : c ∈ l) :
    (l.map (fun x => (x, f x))).lookup c = some (f c) := by
  induction l with
  | nil => simp at hc
  | cons x xs ih =>
    rcases List.mem_cons.mp hc with rfl | hmem
    · simp [List.lookup]
    · by_cases hcx : c = x
      · subst hcx
        simp [List.lookup]
      · simp only [List.map_cons, List.lookup]
        rw [show (c == x) = false from beq_eq_false_iff_ne.mpr hcx]
        exact ih hmem

theorem headD_sortTagsDesc_snd (l : List (String × ℕ)) :
    ((sortTagsDesc l).headD ("", 0)).2 = (l.map (fun p => p.2)).foldr max 0 := by
  haveI : IsTotal (String × ℕ) (fun a b => b.2 ≤ a.2) := ⟨fun a b => le_total b.2 a.2⟩
  haveI : IsTrans (String × ℕ) (fun a b => b.2 ≤ a.2) :=
    ⟨fun a b c hab hbc => le_trans hbc hab⟩
  have hperm : (sortTagsDesc l).Perm l := List.perm_insertionSort _ _
  have hsorted : (sortTagsDesc l).Pairwise (fun a b => b.2 ≤ a.2) :=
    List.sorted_insertionSort _ l
  cases hS : sortTagsDesc l with
  | nil =>
    have : l = [] := List.Perm.eq_nil (hS ▸ hperm).symm
    subst this
    simp
  | cons x xs =>
    rw [hS] at hperm hsorted
    simp only [List.headD_cons]
    apply le_antisymm
    · apply le_foldr_max
      exact List.mem_map.mpr ⟨x, hperm.mem_iff.mp (by simp), rfl⟩
    · apply foldr_max_le
      intro y hy
      rcases List.mem_map.mp hy with ⟨p, hp, rfl⟩
      rcases List.mem_cons.mp (hperm.mem_iff.mpr hp) with rfl | hmem
      · exact le_refl _
      · exact (List.pairwise_cons.mp hsorted).1 p hmem


/-- C9 counterexample: with two distinct tags of equal count, the source
keeps them in first-occurrence order (b before a), so the tag profile is
not sorted ascending by tag name among equal counts as claimed. -/
theorem tag_distribution_tie_not_alphabetical :
    ((get_tag_distribution_per_cluster
        [⟨"c1", "m1", ["b"]⟩, ⟨"c2", "m2", ["a"]⟩] [0, 0]).lookup 0).map
          (fun st => st.top_tags) = some [("b", 1), ("a", 1)] ∧
    ¬ ([("b", 1), ("a", 1)] : List (String × ℕ)).Pairwise
        (fun a b => b.2 < a.2 ∨ (a.2 = b.2 ∧ strLtB a.1 b.1 = true)) := by
  constructor
  · decide
  · decide

/-- C9 (amended): for every non-noise cluster, the top-tags list is the
first ten entries of a permutation of the member-tag occurrence counts that
is sorted descending by count, with equal counts kept in first-occurrence
order (the order they appear among the flattened member tags) rather than
ascending by tag name; tag coverage equals the count of the single most
frequent tag divided by the cluster size, and is 0 when the cluster has no
tags at all. -/
theorem get_tag_distribution_spec (df : List ConversationRecord) (ls : List ℤ)
    (c : ℤ) (hc : c ∈ sortedNonNoise ls) :
    ∃ st, (get_tag_distribution_per_cluster df ls).lookup c = some st ∧
      (∃ S, S.Perm (countOcc (((clusterRecords df ls c).map (fun r => r.tags)).flatten)) ∧
        st.top_tags = S.take 10 ∧
        S.Pairwise (fun a b => b.2 ≤ a.2) ∧
        (∀ a b : String × ℕ, a.2 = b.2 →
          [a, b].Sublist
            (countOcc (((clusterRecords df ls c).map (fun r => r.tags)).flatten)) →
          [a, b].Sublist S)) ∧
      st.tag_coverage =
        (if 0 < (clusterRecords df ls c).length then
          ((((countOcc (((clusterRecords df ls c).map (fun r => r.tags)).flatten)).map
              (fun p => p.2)).foldr max 0 : ℕ) : ℚ) / ((clusterRecords df ls c).length : ℚ)
         else 0) ∧
      st.cluster_size = (clusterRecords df ls c).length := by
  refine ⟨tagStatsOf df ls c, ?_, ?_, ?_, rfl⟩
  · unfold get_tag_distribution_per_cluster
    exact lookup_map_self _ _ c hc
  · refine ⟨sortTagsDesc
      (countOcc (((clusterRecords df ls c).map (fun r => r.tags)).flatten)),
      ?_, ?_, ?_, ?_⟩
    · exact List.perm_insertionSort _ _
    · rfl
    · haveI : IsTotal (String × ℕ) (fun a b => b.2 ≤ a.2) := ⟨fun a b => le_total b.2 a.2⟩
      haveI : IsTrans (String × ℕ) (fun a b => b.2 ≤ a.2) :=
        ⟨fun a b c hab hbc => le_trans hbc hab⟩
      exact List.sorted_insertionSort _ _
    · intro a b hab hsub
      exact List.pair_sublist_insertionSort (le_of_eq hab.symm) hsub
  · show (if 0 < (clusterRecords df ls c).length then
        ((((sortTagsDesc (countOcc (((clusterRecords df ls c).map
            (fun r => r.tags)).flatten))).headD ("", 0)).2 : ℕ) : ℚ) /
          ((clusterRecords df ls c).length : ℚ)
      else 0) = _
    rw [headD_sortTagsDesc_snd]

/-- Witness for get_tag_distribution_spec on a one-record cluster. -/
theorem get_tag_distribution_spec_witness :
    ((0 : ℤ) ∈ sortedNonNoise [0]) ∧
    (∃ st, (get_tag_distribution_per_cluster [⟨"c1", "m1", ["x", "x"]⟩] [0]).lookup 0 =
        some st ∧
      (∃ S, S.Perm (countOcc (((clusterRecords [⟨"c1", "m1", ["x", "x"]⟩] [0] 0).map
            (fun r => r.tags)).flatten)) ∧
        st.top_tags = S.take 10 ∧
        S.Pairwise (fun a b => b.2 ≤ a.2) ∧
        (∀ a b : String × ℕ, a.2 = b.2 →
          [a, b].Sublist
            (countOcc (((clusterRecords [⟨"c1", "m1", ["x", "x"]⟩] [0] 0).map
              (fun r => r.tags)).flatten)) →
          [a, b].Sublist S)) ∧
      st.tag_coverage =
        (if 0 < (clusterRecords [⟨"c1", "m1", ["x", "x"]⟩] [0] 0).length then
          ((((countOcc (((clusterRecords [⟨"c1", "m1", ["x", "x"]⟩] [0] 0).map
              (fun p => p.tags)).flatten)).map
              (fun p => p.2)).foldr max 0 : ℕ) : ℚ) /
            ((clusterRecords [⟨"c1", "m1", ["x", "x"]⟩] [0] 0).length : ℚ)
         else 0) ∧
      st.cluster_size = (clusterRecords [⟨"c1", "m1", ["x", "x"]⟩] [0] 0).length) :=
  ⟨by decide, get_tag_distribution_spec _ _ 0 (by decide)⟩

/-! ## Cluster label generation (generate_labels_from_tags_and_messages) -/

/-- Python slicing s[:n] by code points. -/
def pyTake (n : ℕ) (s : String) : String := String.mk (s.toList.take n)

/-- Python str.lower, modelled per character. -/
def pyLower (s : String) : String := String.mk (s.toList.map Char.toLower)

/-- The expression joining the alphanumeric characters of a word in the
source (non-alphanumeric characters stripped). -/
def stripNonAlnum (s : String) : String := String.mk (s.toList.filter Char.isAlphanum)

/-- Python replace of underscores by spaces (single-character pattern, so a
per-character map). -/
def replaceUnderscores (s : String) : String :=
  String.mk (s.toList.map (fun ch => if ch = '_' then ' ' else ch))

/-- Engine of Python str.title: uppercase a letter that follows a
non-letter, lowercase any other letter. -/
def pyTitleGo : Bool → List Char → List Char
  | _, [] => []
  | prevCased, ch :: rest =>
    (if ch.isAlpha then (if prevCased then ch.toLower else ch.toUpper) else ch) ::
      pyTitleGo ch.isAlpha rest

/-- Python str.title. -/
def pyTitle (s : String) : String := String.mk (pyTitleGo false s.toList)

/-- Accumulator pass of Python str.split with no separator: split on runs
of whitespace, no empty words. -/
def pyWordsAux : List Char → List Char → List (List Char)
  | acc, [] => if acc.isEmpty then [] else [acc.reverse]
  | acc, ch :: cs =>
    if ch.isWhitespace then
      if acc.isEmpty then pyWordsAux [] cs else acc.reverse :: pyWordsAux [] cs
    else pyWordsAux (ch :: acc) cs

/-- Python str.split with no separator. -/
def pyWords (l : List Char) : List (List Char) := pyWordsAux [] l

/-- The stop-word set of the source, verbatim. -/
def stopWords : List String :=
  ["the", "a", "an", "is", "was", "are", "were", "i", "you", "my", "your", "to",
   "for", "of", "and", "in", "on", "with", "this", "that", "it", "be", "have",
   "has", "had", "can", "would", "like", "just", "if", "me", "we", "us", "as",
   "at", "but", "not", "so", "do", "does", "did", "will", "when", "what", "how",
   "all", "from"]

/-- Keyword extraction of the source: for the first 3 representative
messages, take the first 200 characters, lowercase, split into words,
strip non-alphanumeric characters, and keep words longer than 3 characters
that are not stop words. -/
def extractWords (messages : List String) : List String :=
  (messages.take 3).flatMap (fun msg =>
    ((pyWords (pyLower (pyTake 200 msg)).toList).map
        (fun w => stripNonAlnum (String.mk w))).filter
      (fun w => 3 < w.length ∧ w ∉ stopWords))

/-- Python str.join on a list of parts. -/
def pyJoin (sep : String) : List String → String
  | [] => ""
  | p :: ps => ps.foldl (fun acc w => acc ++ sep ++ w) p

/-- Counter(words).most_common(k): counts in first-occurrence order,
stable-sorted descending by count, first k entries. -/
def most_common (k : ℕ) (ws : List String) : List (String × ℕ) :=
  (List.insertionSort (fun a b => b.2 ≤ a.2) (countOcc ws)).take k

/-- Loop body of generate_labels_from_tags_and_messages for one cluster:
the most frequent tag humanized if its count exceeds 5, else the one or
two most frequent keywords of the representative messages title-cased and
joined by a space, else the placeholder. -/
def clusterLabel (top_tags : List (String × ℕ)) (c : ℤ) (messages : List String) :
    String :=
  if top_tags ≠ [] ∧ 5 < (top_tags.headD ("", 0)).2 then
    pyTitle (replaceUnderscores (top_tags.headD ("", 0)).1)
  else
    let words := extractWords messages
    if words ≠ [] then
      pyJoin " " ((most_common 2 words).map (fun p => pyTitle p.1))
    else "Cluster " ++ toString c

/-- Representative data kept per cluster by the source. -/
structure ClusterReps where
  messages : List String
  conversation_ids : List String
  distances : List ℝ
deriving Inhabited

/-- Embeds generate_labels_from_tags_and_messages of the source, iterating
over the clusters of the representatives map and reading the top tags from
the tag statistics (default empty). -/
def generate_labels_from_tags_and_messages (reps : List (ℤ × ClusterReps))
    (tagStats : List (ℤ × TagStats)) : List (ℤ × String) :=
  reps.map (fun p =>
    let top_tags := match tagStats.lookup p.1 with
      | some st => st.top_tags
      | none => []
    (p.1, clusterLabel top_tags p.1 p.2.messages))

example : pyTitle "refund_request product" = "Refund_Request Product" := by decide

example : pyTitle (replaceUnderscores "refund_request") = "Refund Request" := by decide

example : extractWords ["I cannot log in to my account please"] =
    ["cannot", "account", "please"] := by decide

theorem string_mk_eq_empty_iff (l : List Char) : String.mk l = "" ↔ l = [] := by
  constructor
  · intro h
    exact congrArg String.toList h
  · intro h
    subst h
    rfl

theorem string_length_pos (s : String) : 0 < s.length ↔ s ≠ "" := by
  cases s with
  | mk data =>
    constructor
    · intro h he
      have hd : data = [] := (string_mk_eq_empty_iff data).mp he
      subst hd
      simp [String.length] at h
    · intro h
      have hd : data ≠ [] := fun hd => h ((string_mk_eq_empty_iff data).mpr hd)
      exact List.length_pos.mpr hd

theorem string_ne_empty_of_length_pos {s : String} (h : 0 < s.length) : s ≠ "" :=
  (string_length_pos s).mp h

theorem pyTitleGo_length (b : Bool) (l : List Char) : (pyTitleGo b l).length = l.length := by
  induction l generalizing b with
  | nil => rfl
  | cons ch rest ih => simp [pyTitleGo, ih]

theorem pyTitle_length (s : String) : (pyTitle s).length = s.length := by
  rw [show (pyTitle s).length = (pyTitleGo false s.toList).length from rfl]
  rw [pyTitleGo_length]
  rfl

theorem replaceUnderscores_length (s : String) :
    (replaceUnderscores s).length = s.length := by
  rw [show (replaceUnderscores s).length
      = (s.toList.map (fun ch => if ch = '_' then ' ' else ch)).length from rfl]
  rw [List.length_map]
  rfl

theorem bumpCount_ne_nil [DecidableEq α] (acc : List (α × ℕ)) (t : α) :
    bumpCount acc t ≠ [] := by
  cases acc with
  | nil => simp [bumpCount]
  | cons p rest =>
    obtain ⟨s, n⟩ := p
    by_cases h : s = t <;> simp [bumpCount, h]

theorem foldl_bumpCount_ne_nil [DecidableEq α] (l : List α) (acc : List (α × ℕ))
    (h : acc ≠ []) : l.foldl bumpCount acc ≠ [] := by
  induction l generalizing acc with
  | nil => exact h
  | cons x xs ih =>
    rw [List.foldl_cons]
    exact ih _ (bumpCount_ne_nil acc x)

theorem countOcc_ne_nil [DecidableEq α] (l : List α) (h : l ≠ []) : countOcc l ≠ [] := by
  cases l with
  | nil => exact absurd rfl h
  | cons x xs =>
    rw [countOcc, List.foldl_cons]
    exact foldl_bumpCount_ne_nil xs _ (bumpCount_ne_nil [] x)

theorem mem_bumpCount_key [DecidableEq α] (acc : List (α × ℕ)) (t : α)
    (p : α × ℕ) (hp : p ∈ bumpCount acc t) : p.1 ∈ acc.map Prod.fst ∨ p.1 = t := by
  induction acc with
  | nil =>
    simp [bumpCount] at hp
    simp [hp]
  | cons q rest ih =>
    obtain ⟨s, n⟩ := q
    simp only [List.map_cons]
    by_cases h : s = t
    · simp only [bumpCount, if_pos h] at hp
      rcases List.mem_cons.mp hp with rfl | hmem
      · exact Or.inr h
      · exact Or.inl (List.mem_cons.mpr (Or.inr (List.mem_map_of_mem Prod.fst hmem)))
    · simp only [bumpCount, if_neg h] at hp
      rcases List.mem_cons.mp hp with rfl | hmem
      · exact Or.inl (List.mem_cons.mpr (Or.inl rfl))
      · rcases ih hmem with hk | hk
        · exact Or.inl (List.mem_cons.mpr (Or.inr hk))
        · exact Or.inr hk

theorem countOcc_key_mem [DecidableEq α] (l : List α) (p : α × ℕ)
    (hp : p ∈ countOcc l) : p.1 ∈ l := by
  have haux : ∀ (l : List α) (acc : List (α × ℕ)), p ∈ l.foldl bumpCount acc →
      p.1 ∈ acc.map Prod.fst ∨ p.1 ∈ l := by
    intro l
    induction l with
    | nil =>
      intro acc h
      exact Or.inl (List.mem_map_of_mem Prod.fst h)
    | cons x xs ih =>
      intro acc h
      rw [List.foldl_cons] at h
      rcases ih _ h with hk | hk
      · rcases List.mem_map.mp hk with ⟨q, hq, hqe⟩
        rcases mem_bumpCount_key acc x q hq with hq2 | hq2
        · exact Or.inl (hqe ▸ hq2)
        · exact Or.inr (List.mem_cons.mpr (Or.inl (hqe ▸ hq2)))
      · exact Or.inr (List.mem_cons.mpr (Or.inr hk))
  rcases haux l [] hp with hk | hk
  · simp at hk
  · exact hk

theorem extractWords_mem_length (messages : List String) (w : String)
    (hw : w ∈ extractWords messages) : 3 < w.length := by
  rw [extractWords, List.mem_flatMap] at hw
  rcases hw with ⟨msg, _, hw⟩
  rcases List.mem_filter.mp hw with ⟨_, hpred⟩
  exact (of_decide_eq_true hpred).1

theorem pyJoin_length_ge (sep : String) (p : String) (ps : List String) :
    p.length ≤ (pyJoin sep (p :: ps)).length := by
  rw [pyJoin]
  induction ps generalizing p with
  | nil => exact le_refl _
  | cons w ws ih =>
    rw [List.foldl_cons]
    refine le_trans ?_ (ih (p ++ sep ++ w))
    rw [String.length_append, String.length_append]
    omega

/-- C5 (amended): the derived label follows the tag, keyword, placeholder
chain: the humanized most frequent tag when its count exceeds 5 (non-empty
whenever that tag is non-empty, but empty when the winning tag is the empty
string), else the one or two most frequent keyword tokens of the
representative messages title-cased and joined by a space (always
non-empty), else the placeholder (always non-empty). -/
theorem clusterLabel_spec (top_tags : List (String × ℕ)) (c : ℤ) (messages : List String) :
    (top_tags ≠ [] ∧ 5 < (top_tags.headD ("", 0)).2 →
      clusterLabel top_tags c messages =
        pyTitle (replaceUnderscores (top_tags.headD ("", 0)).1) ∧
      ((top_tags.headD ("", 0)).1 ≠ "" → clusterLabel top_tags c messages ≠ ""))
    ∧ (¬(top_tags ≠ [] ∧ 5 < (top_tags.headD ("", 0)).2) →
       extractWords messages ≠ [] →
      clusterLabel top_tags c messages =
        pyJoin " " ((most_common 2 (extractWords messages)).map (fun p => pyTitle p.1)) ∧
      clusterLabel top_tags c messages ≠ "")
    ∧ (¬(top_tags ≠ [] ∧ 5 < (top_tags.headD ("", 0)).2) →
       extractWords messages = [] →
      clusterLabel top_tags c messages = "Cluster " ++ toString c ∧
      clusterLabel top_tags c messages ≠ "") := by
  refine ⟨?_, ?_, ?_⟩
  · intro h
    have heq : clusterLabel top_tags c messages =
        pyTitle (replaceUnderscores (top_tags.headD ("", 0)).1) := by
      simp only [clusterLabel]
      rw [if_pos h]
    refine ⟨heq, fun ht => ?_⟩
    rw [heq]
    apply string_ne_empty_of_length_pos
    rw [pyTitle_length, replaceUnderscores_length]
    exact (string_length_pos _).mpr ht
  · intro h hw
    have heq : clusterLabel top_tags c messages =
        pyJoin " " ((most_common 2 (extractWords messages)).map (fun p => pyTitle p.1)) := by
      simp only [clusterLabel]
      rw [if_neg h, if_pos hw]
    refine ⟨heq, ?_⟩
    rw [heq]
    have hco : countOcc (extractWords messages) ≠ [] := countOcc_ne_nil _ hw
    have hsort : List.insertionSort (fun (a b : String × ℕ) => b.2 ≤ a.2)
        (countOcc (extractWords messages)) ≠ [] := by
      intro h0
      have hperm := List.perm_insertionSort (fun (a b : String × ℕ) => b.2 ≤ a.2)
        (countOcc (extractWords messages))
      rw [h0] at hperm
      exact hco hperm.symm.eq_nil
    cases hmc : most_common 2 (extractWords messages) with
    | nil =>
      exfalso
      rw [most_common] at hmc
      rcases List.take_eq_nil_iff.mp hmc with h2 | h2
      · exact absurd h2 (by decide)
      · exact hsort h2
    | cons p ps =>
      simp only [List.map_cons]
      apply string_ne_empty_of_length_pos
      have hpmem : p ∈ List.insertionSort (fun (a b : String × ℕ) => b.2 ≤ a.2)
          (countOcc (extractWords messages)) := by
        have hmem2 : p ∈ most_common 2 (extractWords messages) := by
          rw [hmc]
          exact List.mem_cons.mpr (Or.inl rfl)
        rw [most_common] at hmem2
        exact List.mem_of_mem_take hmem2
      have hp1 : 3 < p.1.length := by
        apply extractWords_mem_length messages
        apply countOcc_key_mem
        exact (List.perm_insertionSort _ _).mem_iff.mp hpmem
      have hlen := pyJoin_length_ge " " (pyTitle p.1) (ps.map (fun p => pyTitle p.1))
      rw [pyTitle_length] at hlen
      omega
  · intro h hw
    have heq : clusterLabel top_tags c messages = "Cluster " ++ toString c := by
      simp only [clusterLabel]
      rw [if_neg h, if_neg (by simp [hw])]
    refine ⟨heq, ?_⟩
    rw [heq]
    apply string_ne_empty_of_length_pos
    rw [String.length_append]
    have hc8 : 0 < "Cluster ".length := by decide
    omega

/-- Witness for clusterLabel_spec: tag branch at a concrete tag list and
placeholder branch at a concrete empty representative list. -/
theorem clusterLabel_spec_witness :
    (([("refund_request", 8)] : List (String × ℕ)) ≠ [] ∧
      5 < (([("refund_request", 8)] : List (String × ℕ)).headD ("", 0)).2) ∧
    clusterLabel [("refund_request", 8)] 0 ["msg"] =
      pyTitle (replaceUnderscores
        (([("refund_request", 8)] : List (String × ℕ)).headD ("", 0)).1) ∧
    clusterLabel [] 7 [] = "Cluster " ++ toString (7 : ℤ) ∧
    clusterLabel [] 7 [] ≠ "" :=
  ⟨by decide,
   ((clusterLabel_spec [("refund_request", 8)] 0 ["msg"]).1 (by decide)).1,
   ((clusterLabel_spec [] 7 []).2.2 (by decide) (by decide)).1,
   ((clusterLabel_spec [] 7 []).2.2 (by decide) (by decide)).2⟩

/-- C5 counterexample: a cluster whose most frequent tag is the empty
string occurring more than 5 times derives the empty string as its label,
so the fallback chain does not always end in a non-empty label. -/
theorem label_empty_for_empty_tag :
    generate_labels_from_tags_and_messages
      [(0, { messages := ["hello world message"], conversation_ids := ["c1"],
             distances := [] })]
      (get_tag_distribution_per_cluster
        [⟨"c1", "m", [""]⟩, ⟨"c2", "m", [""]⟩, ⟨"c3", "m", [""]⟩,
         ⟨"c4", "m", [""]⟩, ⟨"c5", "m", [""]⟩, ⟨"c6", "m", [""]⟩]
        [0, 0, 0, 0, 0, 0]) = [(0, "")] := by
  decide

theorem flatMap_congr {α β : Type} {l : List α} {f g : α → List β}
    (h : ∀ x ∈ l, f x = g x) : l.flatMap f = l.flatMap g := by
  induction l with
  | nil => rfl
  | cons x xs ih =>
    simp only [List.flatMap_cons]
    rw [h x (by simp), ih (fun y hy => h y (by simp [hy]))]

theorem pyTake_idem (n : ℕ) (s : String) : pyTake n (pyTake n s) = pyTake n s := by
  show String.mk (((String.mk (s.toList.take n)).toList).take n) = String.mk (s.toList.take n)
  rw [show (String.mk (s.toList.take n)).toList = s.toList.take n from rfl]
  rw [List.take_take, min_self]

theorem extractWords_truncate (messages : List String) :
    extractWords ((messages.take 3).map (pyTake 200)) = extractWords messages := by
  rw [extractWords, extractWords]
  have h1 : ((messages.take 3).map (pyTake 200)).take 3 =
      (messages.take 3).map (pyTake 200) :=
    List.take_of_length_le (by rw [List.length_map]; exact List.length_take_le _ _)
  rw [h1, List.flatMap_map]
  apply flatMap_congr
  intro msg hmsg
  rw [pyTake_idem]

/-- C10: keyword extraction inspects only the first 3 representative
messages and, in each, only the first 200 characters: truncating every
representative message list that way changes no derived label, so tokens
beyond those prefixes never influence the labels. -/
theorem generate_labels_message_prefix_only (reps : List (ℤ × ClusterReps))
    (tagStats : List (ℤ × TagStats)) :
    generate_labels_from_tags_and_messages
      (reps.map (fun p => (p.1, { p.2 with
        messages := (p.2.messages.take 3).map (pyTake 200) })))
      tagStats
    = generate_labels_from_tags_and_messages reps tagStats := by
  rw [generate_labels_from_tags_and_messages, generate_labels_from_tags_and_messages,
    List.map_map]
  apply List.map_congr_left
  intro p hp
  simp only [Function.comp]
  congr 1
  simp only [clusterLabel, extractWords_truncate]

/-! ## Cluster representatives (get_cluster_representatives) -/

/-- Distances from the cluster centroid to every member row, in member
order: euclidean_distances([centroid], cluster_embeddings)[0] in the
source. -/
noncomputable def clusterDistances (ls : List ℤ) (emb : List (List ℚ)) (c : ℤ) :
    List ℝ :=
  (clusterRows ls emb c).map (fun row => euclideanDist (clusterCentroid ls emb c) row)

/-- A valid result of numpy argsort on the distance list d: a permutation
of the indices 0 .. d.length - 1 that puts the distances in nondecreasing
order.  The default quicksort kind of numpy argsort gives no guarantee on
the relative order of equal keys, so the closest_idx of the source can be
any permutation satisfying this predicate. -/
def ValidArgsort (d : List ℝ) (p : List ℕ) : Prop :=
  p.Perm (List.range d.length) ∧ (p.map (fun k => d.getD k 0)).Pairwise (· ≤ ·)

/-- Per-cluster body of get_cluster_representatives: centroid, member
distances, argsort, first n_samples members. -/
noncomputable def clusterRepsOf (df : List ConversationRecord) (ls : List ℤ)
    (emb : List (List ℚ)) (argsorts : ℤ → List ℕ) (n_samples : ℕ) (c : ℤ) :
    ClusterReps :=
  let cluster_df := clusterRecords df ls c
  let distances := clusterDistances ls emb c
  let closest_idx := (argsorts c).take n_samples
  { messages := closest_idx.map (fun k => (cluster_df.getD k default).first_message)
    conversation_ids :=
      closest_idx.map (fun k => (cluster_df.getD k default).conversation_id)
    distances := closest_idx.map (fun k => distances.getD k 0) }

/-- Embeds get_cluster_representatives of the source: for each non-noise
cluster compute the centroid, the member distances to it, argsort the
distances and keep the first n_samples member rows.  The argsort outcome
is passed as a parameter (see ValidArgsort). -/
noncomputable def get_cluster_representatives (df : List ConversationRecord)
    (ls : List ℤ) (emb : List (List ℚ)) (argsorts : ℤ → List ℕ)
    (n_samples : ℕ := 5) : List (ℤ × ClusterReps) :=
  (sortedNonNoise ls).map (fun c => (c, clusterRepsOf df ls emb argsorts n_samples c))

/-! ## Assignments (calculate_assignments) -/

/-- Assignment value emitted per conversation id. -/
structure Assignment where
  cluster_id : ℤ
  distance_to_centroid : Option ℝ

/-- Centroid dictionary precomputed by calculate_assignments: cluster id
to mean of the member rows, over the sorted non-noise cluster ids. -/
def assignCentroids (ls : List ℤ) (emb : List (List ℚ)) : List (ℤ × List ℚ) :=
  (sortedNonNoise ls).map (fun c =>
    (c, vecMean (((emb.zip ls).filter (fun p => p.2 = c)).map (fun p => p.1))))

/-- Loop body of calculate_assignments for one enumerated row: the noise
sentinel with null distance for noise rows, otherwise the cluster id and
the Euclidean distance of the own row to the precomputed centroid. -/
noncomputable def rowAssignment (centroids : List (ℤ × List ℚ))
    (emb : List (List ℚ)) (ip : ℕ × String × ℤ) : Assignment :=
  if ip.2.2 = -1 then ⟨-1, none⟩
  else ⟨ip.2.2, some (euclideanDist (emb.getD ip.1 [])
    ((centroids.lookup ip.2.2).getD []))⟩

/-- Embeds calculate_assignments of the source: precompute the centroids
of the non-noise clusters, then walk the rows in original load order,
writing one assignment per conversation id into the assignments dict
(an association list written with update-or-append). -/
noncomputable def calculate_assignments (df : List ConversationRecord)
    (ls : List ℤ) (emb : List (List ℚ)) : List (String × Assignment) :=
  let centroids := assignCentroids ls emb
  (((df.map (fun r => r.conversation_id)).zip ls).enum).foldl
    (fun acc ip => upsert acc ip.2.1 (rowAssignment centroids emb ip)) []

theorem clusterDistances_pair_example :
    clusterDistances [0, 0] [[0], [2]] 0 = [1, 1] := by
  have hrows : clusterRows [0, 0] [[0], [2]] 0 = [[0], [2]] := rfl
  have hcent : clusterCentroid [0, 0] [[0], [2]] 0 = [1] := by
    rw [clusterCentroid, hrows]
    norm_num [vecMean, List.range_succ]
  have h1 : euclideanDist [1] [0] = 1 := by
    show Real.sqrt (sqDist [1] [0]) = 1
    rw [show sqDist [1] [0] = 1 from by norm_num [sqDist]]
    rw [Rat.cast_one, Real.sqrt_one]
  have h2 : euclideanDist [1] [2] = 1 := by
    show Real.sqrt (sqDist [1] [2]) = 1
    rw [show sqDist [1] [2] = 1 from by norm_num [sqDist]]
    rw [Rat.cast_one, Real.sqrt_one]
  simp only [clusterDistances, hcent, hrows, List.map_cons, List.map_nil]
  rw [h1, h2]

/-- C8 counterexample: two members at exactly equal distance from their
centroid; the reversed index order is a valid argsort outcome, and the
resulting representative list is not in original row order. -/
theorem representatives_tie_order_not_row_order :
    ValidArgsort (clusterDistances [0, 0] [[0], [2]] 0) [1, 0] ∧
    ((get_cluster_representatives [⟨"c1", "m0", []⟩, ⟨"c2", "m1", []⟩] [0, 0]
        [[0], [2]] (fun _ => [1, 0]) 5).lookup 0).map (fun r => r.messages) =
      some ["m1", "m0"] ∧
    (["m1", "m0"] : List String) ≠ ["m0", "m1"] := by
  refine ⟨⟨?_, ?_⟩, ?_, by decide⟩
  · rw [clusterDistances_pair_example]
    decide
  · rw [clusterDistances_pair_example]
    simp [List.pairwise_cons]
  · rfl

/-- C8 (amended): for every non-noise cluster and every index permutation
that validly sorts the member distances (any possible outcome of the
unstable numpy argsort), the representative list consists of n_samples
distinct member rows whose distances to the centroid are nondecreasing and
no larger than the distance of any unselected member; the relative order of
members at exactly equal distances is whatever the argsort chose, not
necessarily original row order. -/
theorem get_cluster_representatives_spec (df : List ConversationRecord)
    (ls : List ℤ) (emb : List (List ℚ)) (argsorts : ℤ → List ℕ) (n_samples : ℕ)
    (c : ℤ) (hc : c ∈ sortedNonNoise ls)
    (hv : ValidArgsort (clusterDistances ls emb c) (argsorts c)) :
    ∃ r, (get_cluster_representatives df ls emb argsorts n_samples).lookup c = some r ∧
      r.messages = ((argsorts c).take n_samples).map
        (fun k => ((clusterRecords df ls c).getD k default).first_message) ∧
      r.distances = ((argsorts c).take n_samples).map
        (fun k => (clusterDistances ls emb c).getD k 0) ∧
      ((argsorts c).take n_samples).Nodup ∧
      (∀ k ∈ (argsorts c).take n_samples, k < (clusterDistances ls emb c).length) ∧
      r.distances.Pairwise (· ≤ ·) ∧
      (∀ k ∈ (argsorts c).take n_samples, ∀ j < (clusterDistances ls emb c).length,
        j ∉ (argsorts c).take n_samples →
        (clusterDistances ls emb c).getD k 0 ≤ (clusterDistances ls emb c).getD j 0) := by
  obtain ⟨hperm, hsorted⟩ := hv
  refine ⟨clusterRepsOf df ls emb argsorts n_samples c, ?_, rfl, rfl, ?_, ?_, ?_, ?_⟩
  · unfold get_cluster_representatives
    exact lookup_map_self _ _ c hc
  · have hnd : (argsorts c).Nodup := by
      refine hperm.nodup_iff.mpr (List.nodup_range _)
    exact List.Nodup.sublist (List.take_sublist _ _) hnd
  · intro k hk
    have hk2 : k ∈ argsorts c := List.mem_of_mem_take hk
    exact List.mem_range.mp (hperm.mem_iff.mp hk2)
  · show (((argsorts c).take n_samples).map
      (fun k => (clusterDistances ls emb c).getD k 0)).Pairwise (· ≤ ·)
    rw [List.map_take]
    exact List.Pairwise.sublist (List.take_sublist _ _) hsorted
  · intro k hk j hj hjn
    have hjp : j ∈ argsorts c := hperm.mem_iff.mpr (List.mem_range.mpr hj)
    have hjd : j ∈ (argsorts c).drop n_samples := by
      have hsplit : j ∈ (argsorts c).take n_samples ++ (argsorts c).drop n_samples := by
        rw [List.take_append_drop]
        exact hjp
      rcases List.mem_append.mp hsplit with h | h
      · exact absurd h hjn
      · exact h
    have hx : (clusterDistances ls emb c).getD k 0 ∈
        ((argsorts c).map (fun k => (clusterDistances ls emb c).getD k 0)).take n_samples := by
      rw [← List.map_take]
      exact List.mem_map_of_mem _ hk
    have hy : (clusterDistances ls emb c).getD j 0 ∈
        ((argsorts c).map (fun k => (clusterDistances ls emb c).getD k 0)).drop n_samples := by
      rw [← List.map_drop]
      exact List.mem_map_of_mem _ hjd
    exact List.Sorted.rel_of_mem_take_of_mem_drop hsorted hx hy

/-- Witness for get_cluster_representatives_spec with the identity argsort
on a two-member cluster. -/
theorem get_cluster_representatives_spec_witness :
    ((0 : ℤ) ∈ sortedNonNoise [0, 0]) ∧
    ValidArgsort (clusterDistances [0, 0] [[0], [2]] 0) [0, 1] ∧
    (∃ r, (get_cluster_representatives [⟨"c1", "m0", []⟩, ⟨"c2", "m1", []⟩] [0, 0]
          [[0], [2]] (fun _ => [0, 1]) 5).lookup 0 = some r ∧
      r.messages = (([0, 1] : List ℕ).take 5).map
        (fun k => ((clusterRecords [⟨"c1", "m0", []⟩, ⟨"c2", "m1", []⟩] [0, 0] 0).getD k
          default).first_message) ∧
      r.distances = (([0, 1] : List ℕ).take 5).map
        (fun k => (clusterDistances [0, 0] [[0], [2]] 0).getD k 0) ∧
      (([0, 1] : List ℕ).take 5).Nodup ∧
      (∀ k ∈ ([0, 1] : List ℕ).take 5, k < (clusterDistances [0, 0] [[0], [2]] 0).length) ∧
      r.distances.Pairwise (· ≤ ·) ∧
      (∀ k ∈ ([0, 1] : List ℕ).take 5, ∀ j < (clusterDistances [0, 0] [[0], [2]] 0).length,
        j ∉ ([0, 1] : List ℕ).take 5 →
        (clusterDistances [0, 0] [[0], [2]] 0).getD k 0 ≤
          (clusterDistances [0, 0] [[0], [2]] 0).getD j 0)) := by
  have hv : ValidArgsort (clusterDistances [0, 0] [[0], [2]] 0) [0, 1] := by
    constructor
    · rw [clusterDistances_pair_example]
      decide
    · rw [clusterDistances_pair_example]
      simp [List.pairwise_cons]
  exact ⟨by decide, hv,
    get_cluster_representatives_spec _ _ _ _ 5 0 (by decide) hv⟩

theorem sqDist_comm (x y : List ℚ) : sqDist x y = sqDist y x := by
  induction x generalizing y with
  | nil => cases y <;> rfl
  | cons a as ih =>
    cases y with
    | nil => rfl
    | cons b bs =>
      simp only [sqDist, List.zip_cons_cons, List.map_cons, List.sum_cons]
      rw [show ((a - b) ^ 2 : ℚ) = (b - a) ^ 2 from by ring]
      have hih := ih bs
      simp only [sqDist] at hih
      rw [hih]

theorem euclideanDist_comm (x y : List ℚ) : euclideanDist x y = euclideanDist y x := by
  show Real.sqrt (sqDist x y) = Real.sqrt (sqDist y x)
  rw [sqDist_comm]

theorem foldl_upsert_append {β : Type} (g : ℕ × String × ℤ → β)
    (L : List (ℕ × String × ℤ)) (acc : List (String × β))
    (hfresh : ∀ ip ∈ L, ∀ q ∈ acc, q.1 ≠ ip.2.1)
    (hnd : (L.map (fun ip => ip.2.1)).Nodup) :
    L.foldl (fun acc ip => upsert acc ip.2.1 (g ip)) acc =
      acc ++ L.map (fun ip => (ip.2.1, g ip)) := by
  induction L generalizing acc with
  | nil => simp
  | cons ip rest ih =>
    simp only [List.map_cons, List.nodup_cons] at hnd
    rw [List.foldl_cons]
    have hany : acc.any (fun p => p.1 = ip.2.1) = false := by
      rw [List.any_eq_false]
      intro q hq
      simpa using hfresh ip (List.mem_cons_self _ _) q hq
    have hup : upsert acc ip.2.1 (g ip) = acc ++ [(ip.2.1, g ip)] := by
      simp only [upsert, hany]
      simp
    have hfresh2 : ∀ ip2 ∈ rest, ∀ q ∈ acc ++ [(ip.2.1, g ip)], q.1 ≠ ip2.2.1 := by
      intro ip2 h2 q hq
      rcases List.mem_append.mp hq with hq | hq
      · exact hfresh ip2 (List.mem_cons_of_mem _ h2) q hq
      · have hqe : q = (ip.2.1, g ip) := by simpa using hq
        subst hqe
        intro he
        exact hnd.1 (he ▸ List.mem_map_of_mem (fun ip => ip.2.1) h2)
    rw [hup, ih (acc ++ [(ip.2.1, g ip)]) hfresh2 hnd.2]
    simp

/-- C3: walking the records in original load order, a noise row is
assigned the sentinel cluster -1 with null distance, and any other row the
Euclidean distance from its own reduced row to the centroid of its
cluster; the centroid dictionary of the Assignment Builder agrees exactly
with the centroid the Cluster Summarizer uses for the same cluster, and
the summarizer distances are the distances of the member rows to that same
centroid (exact agreement; both recompute the identical mean). -/
theorem calculate_assignments_spec (df : List ConversationRecord) (ls : List ℤ)
    (emb : List (List ℚ)) (hlen : ls.length = df.length)
    (hnd : (df.map (fun r => r.conversation_id)).Nodup) :
    calculate_assignments df ls emb =
      (((df.map (fun r => r.conversation_id)).zip ls).enum).map (fun ip =>
        (ip.2.1, if ip.2.2 = -1 then (⟨-1, none⟩ : Assignment) else
          ⟨ip.2.2, some (euclideanDist (emb.getD ip.1 [])
            (clusterCentroid ls emb ip.2.2))⟩))
    ∧ (∀ c ∈ sortedNonNoise ls,
        (assignCentroids ls emb).lookup c = some (clusterCentroid ls emb c))
    ∧ (∀ c, clusterDistances ls emb c =
        (clusterRows ls emb c).map (fun row =>
          euclideanDist row (clusterCentroid ls emb c))) := by
  have hcent : ∀ c ∈ sortedNonNoise ls,
      (assignCentroids ls emb).lookup c = some (clusterCentroid ls emb c) := by
    intro c hc
    exact lookup_map_self _ _ c hc
  refine ⟨?_, hcent, ?_⟩
  · have hkeys : ((((df.map (fun r => r.conversation_id)).zip ls).enum).map
        (fun ip => ip.2.1)).Nodup := by
      have h1 : ((((df.map (fun r => r.conversation_id)).zip ls).enum).map
          (fun ip => ip.2.1))
          = ((df.map (fun r => r.conversation_id)).zip ls).map (fun q => q.1) := by
        rw [show (fun (ip : ℕ × String × ℤ) => ip.2.1)
            = (fun (q : String × ℤ) => q.1) ∘ Prod.snd from rfl]
        rw [← List.map_map, List.enum_map_snd]
      rw [h1]
      rw [List.map_fst_zip _ _ (by rw [List.length_map]; omega)]
      exact hnd
    have hmain := foldl_upsert_append
      (rowAssignment (assignCentroids ls emb) emb)
      (((df.map (fun r => r.conversation_id)).zip ls).enum) []
      (by intro ip hip q hq; simp at hq) hkeys
    rw [show calculate_assignments df ls emb =
      (((df.map (fun r => r.conversation_id)).zip ls).enum).foldl
        (fun acc ip => upsert acc ip.2.1
          (rowAssignment (assignCentroids ls emb) emb ip)) [] from rfl]
    rw [hmain, List.nil_append]
    apply List.map_congr_left
    intro ip hip
    congr 1
    rw [rowAssignment]
    by_cases hip2 : ip.2.2 = -1
    · rw [if_pos hip2, if_pos hip2]
    · rw [if_neg hip2, if_neg hip2]
      have hmem : ip.2.2 ∈ ls := by
        have h2 : ip.2 ∈ (df.map (fun r => r.conversation_id)).zip ls := by
          have := List.mem_map_of_mem Prod.snd hip
          rw [List.enum_map_snd] at this
          exact this
        exact (List.of_mem_zip h2).2
      have hcin : ip.2.2 ∈ sortedNonNoise ls := by
        rw [sortedNonNoise]
        apply (List.perm_insertionSort _ _).mem_iff.mpr
        rw [List.mem_dedup, List.mem_filter]
        exact ⟨hmem, by simpa using hip2⟩
      rw [hcent _ hcin, Option.getD_some]
  · intro c
    simp only [clusterDistances]
    apply List.map_congr_left
    intro row hrow
    exact euclideanDist_comm _ _

/-- Witness for calculate_assignments_spec with one noise and one
clustered record. -/
theorem calculate_assignments_spec_witness :
    (([-1, 0] : List ℤ).length
      = ([⟨"c1", "m0", []⟩, ⟨"c2", "m1", []⟩] : List ConversationRecord).length) ∧
    ((([⟨"c1", "m0", []⟩, ⟨"c2", "m1", []⟩] : List ConversationRecord).map
      (fun r => r.conversation_id)).Nodup) ∧
    (calculate_assignments [⟨"c1", "m0", []⟩, ⟨"c2", "m1", []⟩] [-1, 0] [[0], [2]] =
      (((([⟨"c1", "m0", []⟩, ⟨"c2", "m1", []⟩] : List ConversationRecord).map
          (fun r => r.conversation_id)).zip ([-1, 0] : List ℤ)).enum).map (fun ip =>
        (ip.2.1, if ip.2.2 = -1 then (⟨-1, none⟩ : Assignment) else
          ⟨ip.2.2, some (euclideanDist (([[0], [2]] : List (List ℚ)).getD ip.1 [])
            (clusterCentroid [-1, 0] [[0], [2]] ip.2.2))⟩))
    ∧ (∀ c ∈ sortedNonNoise [-1, 0],
        (assignCentroids [-1, 0] [[0], [2]]).lookup c
          = some (clusterCentroid [-1, 0] [[0], [2]] c))
    ∧ (∀ c, clusterDistances [-1, 0] [[0], [2]] c =
        (clusterRows [-1, 0] [[0], [2]] c).map (fun row =>
          euclideanDist row (clusterCentroid [-1, 0] [[0], [2]] c)))) :=
  ⟨by decide, by decide, calculate_assignments_spec _ _ _ (by decide) (by decide)⟩

/-! ## Artifact writer (save_outputs and the tail of main) -/

/-- Flat model of the artifact directory tree: file contents by path plus
the latest symlink target. -/
structure FileSys where
  files : List (String × String)
  latest : Option String
deriving DecidableEq, Repr

/-- Contents produced by one run for the four output files. -/
structure RunOutputs where
  assignments : String
  labelsFile : String
  metricsFile : String
  iterationsFile : String
deriving DecidableEq, Repr

/-- Version directory used by the source: always v1, never a fresh name. -/
def versionDir : String := "artifacts/phase-0/clusters/v1"

/-- The four file writes of a run in source order: save_outputs writes
assignments.json, labels.json and metrics.json, then main writes
iterations.json, all into the same fixed directory. -/
def mainWrites (o : RunOutputs) : List (String × String) :=
  [(versionDir ++ "/assignments.json", o.assignments),
   (versionDir ++ "/labels.json", o.labelsFile),
   (versionDir ++ "/metrics.json", o.metricsFile),
   (versionDir ++ "/iterations.json", o.iterationsFile)]

/-- Write one file, creating or overwriting it in place. -/
def writeFile (fs : FileSys) (path content : String) : FileSys :=
  { fs with files := upsert fs.files path content }

/-- Apply a list of file writes to a directory tree. -/
def applyWrites (ws : List (String × String)) (files : List (String × String)) :
    List (String × String) :=
  ws.foldl (fun acc w => upsert acc w.1 w.2) files

/-- Step executor for the writer tail of main: the numbered file writes,
then unlinking the latest pointer (step 4), then recreating it pointing at
v1 (step 5).  A failure injected at step k through failAt aborts the run
with the state written so far, as the propagating Python exception would. -/
def runWriterGo (failAt : Option ℕ) : ℕ → FileSys → List (String × String) →
    Except FileSys FileSys
  | k, fs, [] =>
    if failAt = some k then Except.error fs
    else
      let fs1 : FileSys := { fs with latest := none }
      if failAt = some (k + 1) then Except.error fs1
      else Except.ok { fs1 with latest := some "v1" }
  | k, fs, w :: ws =>
    if failAt = some k then Except.error fs
    else runWriterGo failAt (k + 1) (writeFile fs w.1 w.2) ws

/-- Embeds the writer tail of main: save_outputs (three file writes into
the fixed v1 directory created in place), the iterations.json write, then
unlink and recreate the latest symlink pointing at v1. -/
def runWriter (o : RunOutputs) (failAt : Option ℕ) (fs : FileSys) :
    Except FileSys FileSys :=
  runWriterGo failAt 0 fs (mainWrites o)

/-- C6 counterexample: starting from a state where a previous run filled
v1 and pointed latest at it, a failure while writing the second file
leaves latest still referencing v1, which now mixes new and old contents:
a partially written version directory reachable through latest. -/
theorem writer_failure_leaves_partial_v1 :
    runWriter ⟨"newA", "newL", "newM", "newI"⟩ (some 1)
      ⟨[(versionDir ++ "/assignments.json", "oldA"),
        (versionDir ++ "/labels.json", "oldL"),
        (versionDir ++ "/metrics.json", "oldM"),
        (versionDir ++ "/iterations.json", "oldI")], some "v1"⟩ =
      Except.error
        ⟨[(versionDir ++ "/assignments.json", "newA"),
          (versionDir ++ "/labels.json", "oldL"),
          (versionDir ++ "/metrics.json", "oldM"),
          (versionDir ++ "/iterations.json", "oldI")], some "v1"⟩ ∧
    ("newA" : String) ≠ "oldA" := by
  constructor
  · rfl
  · decide

/-- C6 (amended): every run writes its four output files in a fixed order
into the fixed directory v1 (reused across runs, never a fresh version
directory) and only afterwards recreates the latest pointer at v1.  A
failure at the k-th file write aborts with exactly the first k files
overwritten and the latest pointer untouched; a failure-free run
overwrites all four files and repoints latest at v1.  Consequently a
latest pointer left from a previous successful run keeps referencing the
partially overwritten v1 after a failure. -/
theorem runWriter_spec (o : RunOutputs) (fs : FileSys) :
    (∀ k, k < 4 → ∃ fs2, runWriter o (some k) fs = Except.error fs2 ∧
      fs2.latest = fs.latest ∧
      fs2.files = applyWrites ((mainWrites o).take k) fs.files)
    ∧ runWriter o none fs =
        Except.ok ⟨applyWrites (mainWrites o) fs.files, some "v1"⟩ := by
  constructor
  · intro k hk
    interval_cases k
    · exact ⟨_, rfl, rfl, rfl⟩
    · exact ⟨_, rfl, rfl, rfl⟩
    · exact ⟨_, rfl, rfl, rfl⟩
    · exact ⟨_, rfl, rfl, rfl⟩
  · rfl

/-- Witness for runWriter_spec at a concrete failure point and contents. -/
theorem runWriter_spec_witness :
    (2 < 4) ∧
    (∃ fs2, runWriter ⟨"a", "l", "m", "i"⟩ (some 2) ⟨[], none⟩ = Except.error fs2 ∧
      fs2.latest = (⟨[], none⟩ : FileSys).latest ∧
      fs2.files = applyWrites ((mainWrites ⟨"a", "l", "m", "i"⟩).take 2)
        (⟨[], none⟩ : FileSys).files) ∧
    runWriter ⟨"a", "l", "m", "i"⟩ none ⟨[], none⟩ =
      Except.ok ⟨applyWrites (mainWrites ⟨"a", "l", "m", "i"⟩)
        (⟨[], none⟩ : FileSys).files, some "v1"⟩ :=
  ⟨by decide, (runWriter_spec ⟨"a", "l", "m", "i"⟩ ⟨[], none⟩).1 2 (by decide),
   (runWriter_spec ⟨"a", "l", "m", "i"⟩ ⟨[], none⟩).2⟩

/-! ## Cluster search controller (the trial loop of main) -/

/-- Per-trial log entry appended to the iterations list; the source logs
the metrics dictionary minus the cluster_sizes entry. -/
structure IterationLog where
  iteration : ℕ
  silhouette_score : ℚ
  num_clusters : ℕ
  noise_points : ℕ
  noise_pct : ℚ
  largest_cluster_pct : ℚ
  quality_gates_passed : Bool
  issues : List String
deriving DecidableEq, Repr

/-- Log entry for 0-based trial index i (the source logs i + 1). -/
def mkIterationLog (i : ℕ) (m : QualityMetrics ℚ) : IterationLog :=
  { iteration := i + 1
    silhouette_score := m.silhouette_score
    num_clusters := m.num_clusters
    noise_points := m.noise_points
    noise_pct := m.noise_pct
    largest_cluster_pct := m.largest_cluster_pct
    quality_gates_passed := (check_quality_gates m).1
    issues := (check_quality_gates m).2 }

/-- Best-trial update of main: replace the best trial when the current
trial passed, when there is no best yet, or when its stored silhouette
strictly exceeds the best one. -/
def updateBest (i : ℕ) (m : QualityMetrics ℚ) (passed : Bool)
    (best : Option (ℕ × QualityMetrics ℚ)) : Option (ℕ × QualityMetrics ℚ) :=
  match best with
  | none => some (i, m)
  | some b =>
    if passed = true ∨ b.2.silhouette_score < m.silhouette_score then some (i, m)
    else some b

/-- The trial loop of main.  Each list entry is the outcome of
run_clustering plus calculate_metrics for one ParameterSet: ok with the
stored metrics, or error when the clusterer raised, in which case the
whole run aborts at once (the source wraps the loop body in no
try/except).  The loop stops after max_iterations trials or at the first
trial that passes the quality gates, and returns the iteration log
together with the best trial (index and metrics). -/
def searchGo (maxIter : ℕ) : ℕ → Option (ℕ × QualityMetrics ℚ) →
    List IterationLog → List (Except Unit (QualityMetrics ℚ)) →
    Except Unit (List IterationLog × Option (ℕ × QualityMetrics ℚ))
  | _, best, log, [] => Except.ok (log, best)
  | i, best, log, t :: rest =>
    if maxIter ≤ i then Except.ok (log, best)
    else
      match t with
      | Except.error e => Except.error e
      | Except.ok m =>
        let passed := (check_quality_gates m).1
        let log2 := log ++ [mkIterationLog i m]
        let best2 := updateBest i m passed best
        if passed then Except.ok (log2, best2)
        else searchGo maxIter (i + 1) best2 log2 rest

/-- The whole trial phase of main over the candidate ParameterSet list. -/
def mainSearch (maxIter : ℕ) (trials : List (Except Unit (QualityMetrics ℚ))) :
    Except Unit (List IterationLog × Option (ℕ × QualityMetrics ℚ)) :=
  searchGo maxIter 0 none [] trials

theorem searchGo_cons (maxIter i : ℕ) (best : Option (ℕ × QualityMetrics ℚ))
    (log : List IterationLog) (t : Except Unit (QualityMetrics ℚ))
    (rest : List (Except Unit (QualityMetrics ℚ))) :
    searchGo maxIter i best log (t :: rest) =
      if maxIter ≤ i then Except.ok (log, best)
      else
        match t with
        | Except.error e => Except.error e
        | Except.ok m =>
          let passed := (check_quality_gates m).1
          let log2 := log ++ [mkIterationLog i m]
          let best2 := updateBest i m passed best
          if passed then Except.ok (log2, best2)
          else searchGo maxIter (i + 1) best2 log2 rest := rfl

/-- Trial metrics that fail the quality gates (zero silhouette). -/
def failMetrics : QualityMetrics ℚ := ⟨0, 0, 0, 0, 0, []⟩

/-- Trial metrics that pass every quality gate. -/
def passMetrics : QualityMetrics ℚ := ⟨1, 3, 0, 0, 30, []⟩

theorem failMetrics_fails : (check_quality_gates failMetrics).1 = false := by
  norm_num [check_quality_gates, failMetrics]

theorem passMetrics_passes : (check_quality_gates passMetrics).1 = true := by
  norm_num [check_quality_gates, passMetrics]

/-- C7 counterexample: the clusterer fails on the first of three
candidates while the second candidate would pass all gates, yet the run
aborts immediately with no failed-trial record and no further attempt. -/
theorem clusterer_failure_aborts_run :
    mainSearch 3 [Except.error (), Except.ok passMetrics] = Except.error () ∧
    (check_quality_gates passMetrics).1 = true := by
  constructor
  · rfl
  · exact passMetrics_passes

/-- C7 (amended): a Density-Clusterer failure on any candidate aborts the
whole run at once: when every earlier trial ran and failed its gates and
the next outcome raises, the loop propagates the exception; no failed
TrialRecord is appended and no later ParameterSet is attempted, regardless
of the position of the failing candidate in the list. -/
theorem mainSearch_aborts_on_clusterer_failure (maxIter : ℕ)
    (pre : List (QualityMetrics ℚ)) (rest : List (Except Unit (QualityMetrics ℚ)))
    (hpre : ∀ m ∈ pre, (check_quality_gates m).1 = false)
    (hlen : pre.length < maxIter) :
    mainSearch maxIter (pre.map Except.ok ++ Except.error () :: rest) =
      Except.error () := by
  have haux : ∀ (pre : List (QualityMetrics ℚ)) (i : ℕ)
      (best : Option (ℕ × QualityMetrics ℚ)) (log : List IterationLog),
      (∀ m ∈ pre, (check_quality_gates m).1 = false) →
      i + pre.length < maxIter →
      searchGo maxIter i best log (pre.map Except.ok ++ Except.error () :: rest) =
        Except.error () := by
    intro pre
    induction pre with
    | nil =>
      intro i best log hp hl
      simp only [List.map_nil, List.nil_append]
      rw [searchGo_cons, if_neg (by omega)]
    | cons m pre2 ih =>
      intro i best log hp hl
      simp only [List.map_cons, List.cons_append]
      rw [searchGo_cons, if_neg (by omega)]
      simp only []
      rw [hp m (List.mem_cons_self _ _)]
      simp only [Bool.false_eq_true, if_false]
      exact ih (i + 1) _ _ (fun m2 h2 => hp m2 (List.mem_cons_of_mem _ h2))
        (by simp only [List.length_cons] at hl; omega)
  exact haux pre 0 none [] hpre (by omega)

/-- Witness for mainSearch_aborts_on_clusterer_failure: failing first
trial, clusterer exception second, viable third candidate never tried. -/
theorem mainSearch_aborts_witness :
    (∀ m ∈ [failMetrics], (check_quality_gates m).1 = false) ∧
    (([failMetrics] : List (QualityMetrics ℚ)).length < 3) ∧
    mainSearch 3 ([failMetrics].map Except.ok ++
        Except.error () :: [Except.ok passMetrics]) =
      Except.error () :=
  ⟨by
    intro m hm
    rw [List.mem_singleton] at hm
    rw [hm]
    exact failMetrics_fails,
   by decide,
   mainSearch_aborts_on_clusterer_failure 3 [failMetrics] [Except.ok passMetrics]
     (by
       intro m hm
       rw [List.mem_singleton] at hm
       rw [hm]
       exact failMetrics_fails)
     (by decide)⟩

/-- Logs produced for a run of consecutive trials starting at index i. -/
def logsFrom (i : ℕ) : List (QualityMetrics ℚ) → List IterationLog
  | [] => []
  | m :: rest => mkIterationLog i m :: logsFrom (i + 1) rest

/-- Best-trial fold over consecutive trials starting at index i. -/
def bestFoldFrom (i : ℕ) (best : Option (ℕ × QualityMetrics ℚ)) :
    List (QualityMetrics ℚ) → Option (ℕ × QualityMetrics ℚ)
  | [] => best
  | m :: rest =>
    bestFoldFrom (i + 1) (updateBest i m (check_quality_gates m).1 best) rest

theorem logsFrom_length (ms : List (QualityMetrics ℚ)) :
    ∀ i, (logsFrom i ms).length = ms.length := by
  induction ms with
  | nil => intro i; rfl
  | cons m rest ih =>
    intro i
    simp only [logsFrom, List.length_cons, ih]

theorem searchGo_no_pass (maxIter : ℕ) (ms : List (QualityMetrics ℚ))
    (hfail : ∀ m ∈ ms, (check_quality_gates m).1 = false) :
    ∀ (i : ℕ) (best : Option (ℕ × QualityMetrics ℚ)) (log : List IterationLog),
      i + ms.length ≤ maxIter →
      searchGo maxIter i best log (ms.map Except.ok) =
        Except.ok (log ++ logsFrom i ms, bestFoldFrom i best ms) := by
  induction ms with
  | nil =>
    intro i best log hl
    simp [searchGo, logsFrom, bestFoldFrom]
  | cons m rest ih =>
    intro i best log hl
    simp only [List.map_cons]
    rw [searchGo_cons, if_neg (by simp only [List.length_cons] at hl; omega)]
    simp only []
    rw [hfail m (List.mem_cons_self _ _)]
    simp only [Bool.false_eq_true, if_false]
    rw [ih (fun m2 h2 => hfail m2 (List.mem_cons_of_mem _ h2)) (i + 1) _ _
      (by simp only [List.length_cons] at hl; omega)]
    simp only [logsFrom, bestFoldFrom, List.append_assoc, List.singleton_append]
    rw [hfail m (List.mem_cons_self _ _)]

theorem searchGo_first_pass (maxIter : ℕ) (pre : List (QualityMetrics ℚ))
    (p : QualityMetrics ℚ) (rest : List (QualityMetrics ℚ))
    (hpre : ∀ m ∈ pre, (check_quality_gates m).1 = false)
    (hp : (check_quality_gates p).1 = true) :
    ∀ (i : ℕ) (best : Option (ℕ × QualityMetrics ℚ)) (log : List IterationLog),
      i + pre.length < maxIter →
      searchGo maxIter i best log ((pre ++ p :: rest).map Except.ok) =
        Except.ok (log ++ logsFrom i (pre ++ [p]), some (i + pre.length, p)) := by
  induction pre with
  | nil =>
    intro i best log hl
    simp only [List.nil_append, List.map_cons]
    rw [searchGo_cons, if_neg (by omega)]
    simp only []
    rw [hp]
    simp only [if_true]
    have hub : updateBest i p true best = some (i, p) := by
      cases best with
      | none => rfl
      | some b => simp [updateBest]
    rw [hub]
    simp [logsFrom]
  | cons m pre2 ih =>
    intro i best log hl
    simp only [List.cons_append, List.map_cons]
    rw [searchGo_cons, if_neg (by simp only [List.length_cons] at hl; omega)]
    simp only []
    rw [hpre m (List.mem_cons_self _ _)]
    simp only [Bool.false_eq_true, if_false]
    rw [ih (fun m2 h2 => hpre m2 (List.mem_cons_of_mem _ h2)) (i + 1) _ _
      (by simp only [List.length_cons] at hl; omega)]
    simp only [logsFrom, List.cons_append, List.append_assoc, List.singleton_append,
      List.length_cons, List.nil_append]
    rw [show i + 1 + pre2.length = i + (pre2.length + 1) from by omega]

theorem exists_earliest_argmax (ms : List (QualityMetrics ℚ)) (hne : ms ≠ []) :
    ∃ j, j < ms.length ∧
      (∀ t, t < ms.length → (ms.getD t default).silhouette_score ≤
        (ms.getD j default).silhouette_score) ∧
      (∀ t, t < j → (ms.getD t default).silhouette_score <
        (ms.getD j default).silhouette_score) := by
  induction ms with
  | nil => exact absurd rfl hne
  | cons m rest ih =>
    rcases eq_or_ne rest [] with hre | hre
    · subst hre
      refine ⟨0, by simp, ?_, by omega⟩
      intro t ht
      have ht0 : t = 0 := by simpa using ht
      subst ht0
      exact le_refl _
    · obtain ⟨j', hj', hmax', hstrict'⟩ := ih hre
      by_cases hcmp : (rest.getD j' default).silhouette_score ≤ m.silhouette_score
      · refine ⟨0, by simp, ?_, by omega⟩
        intro t ht
        cases t with
        | zero => exact le_refl _
        | succ t2 =>
          rw [List.getD_cons_succ, List.getD_cons_zero]
          exact le_trans (hmax' t2 (by simpa using ht)) hcmp
      · refine ⟨j' + 1, by simpa using hj', ?_, ?_⟩
        · intro t ht
          rw [List.getD_cons_succ]
          cases t with
          | zero =>
            rw [List.getD_cons_zero]
            exact le_of_lt (not_le.mp hcmp)
          | succ t2 =>
            rw [List.getD_cons_succ]
            exact hmax' t2 (by simpa using ht)
        · intro t ht
          rw [List.getD_cons_succ]
          cases t with
          | zero =>
            rw [List.getD_cons_zero]
            exact not_le.mp hcmp
          | succ t2 =>
            rw [List.getD_cons_succ]
            exact hstrict' t2 (by omega)

theorem bestFoldFrom_some_spec (ms : List (QualityMetrics ℚ))
    (hfail : ∀ m ∈ ms, (check_quality_gates m).1 = false) :
    ∀ (i bi : ℕ) (bm : QualityMetrics ℚ),
      ((∀ t, t < ms.length → (ms.getD t default).silhouette_score ≤
          bm.silhouette_score) →
        bestFoldFrom i (some (bi, bm)) ms = some (bi, bm))
      ∧ (∀ j, j < ms.length →
          bm.silhouette_score < (ms.getD j default).silhouette_score →
          (∀ t, t < ms.length → (ms.getD t default).silhouette_score ≤
            (ms.getD j default).silhouette_score) →
          (∀ t, t < j → (ms.getD t default).silhouette_score <
            (ms.getD j default).silhouette_score) →
          bestFoldFrom i (some (bi, bm)) ms = some (i + j, ms.getD j default)) := by
  induction ms with
  | nil =>
    intro i bi bm
    exact ⟨fun _ => rfl, fun j hj => absurd hj (by simp)⟩
  | cons m rest ih =>
    intro i bi bm
    have hfm : (check_quality_gates m).1 = false := hfail m (List.mem_cons_self _ _)
    have hfr : ∀ m2 ∈ rest, (check_quality_gates m2).1 = false :=
      fun m2 h2 => hfail m2 (List.mem_cons_of_mem _ h2)
    constructor
    · intro hmax
      have h0 : m.silhouette_score ≤ bm.silhouette_score := by
        have := hmax 0 (by simp)
        simpa using this
      rw [show bestFoldFrom i (some (bi, bm)) (m :: rest)
          = bestFoldFrom (i + 1)
            (updateBest i m (check_quality_gates m).1 (some (bi, bm))) rest from rfl]
      rw [hfm]
      rw [show updateBest i m false (some (bi, bm)) = some (bi, bm) from by
        simp [updateBest, not_lt.mpr h0]]
      exact ((ih hfr) (i + 1) bi bm).1 (fun t ht => by
        have := hmax (t + 1) (by simpa using ht)
        simpa using this)
    · intro j hj hgt hmax hstrict
      rw [show bestFoldFrom i (some (bi, bm)) (m :: rest)
          = bestFoldFrom (i + 1)
            (updateBest i m (check_quality_gates m).1 (some (bi, bm))) rest from rfl]
      rw [hfm]
      cases j with
      | zero =>
        have hgt0 : bm.silhouette_score < m.silhouette_score := by simpa using hgt
        rw [show updateBest i m false (some (bi, bm)) = some (i, m) from by
          simp [updateBest, hgt0]]
        rw [((ih hfr) (i + 1) i m).1 (fun t ht => by
          have := hmax (t + 1) (by simpa using ht)
          simpa using this)]
        simp
      | succ j2 =>
        have hj2 : j2 < rest.length := by simpa using hj
        by_cases hbm : bm.silhouette_score < m.silhouette_score
        · rw [show updateBest i m false (some (bi, bm)) = some (i, m) from by
            simp [updateBest, hbm]]
          rw [((ih hfr) (i + 1) i m).2 j2 hj2
            (by have := hstrict 0 (by omega); simpa using this)
            (fun t ht => by
              have := hmax (t + 1) (by simpa using ht)
              simpa using this)
            (fun t ht => by
              have := hstrict (t + 1) (by omega)
              simpa using this)]
          simp only [List.getD_cons_succ]
          rw [show i + 1 + j2 = i + (j2 + 1) from by omega]
        · rw [show updateBest i m false (some (bi, bm)) = some (bi, bm) from by
            simp [updateBest, hbm]]
          rw [((ih hfr) (i + 1) bi bm).2 j2 hj2
            (by simpa using hgt)
            (fun t ht => by
              have := hmax (t + 1) (by simpa using ht)
              simpa using this)
            (fun t ht => by
              have := hstrict (t + 1) (by omega)
              simpa using this)]
          simp only [List.getD_cons_succ]
          rw [show i + 1 + j2 = i + (j2 + 1) from by omega]

theorem bestFoldFrom_none_spec (ms : List (QualityMetrics ℚ)) (hne : ms ≠ [])
    (hfail : ∀ m ∈ ms, (check_quality_gates m).1 = false) (i : ℕ) :
    ∃ j, j < ms.length ∧
      bestFoldFrom i none ms = some (i + j, ms.getD j default) ∧
      (∀ t, t < ms.length → (ms.getD t default).silhouette_score ≤
        (ms.getD j default).silhouette_score) ∧
      (∀ t, t < j → (ms.getD t default).silhouette_score <
        (ms.getD j default).silhouette_score) := by
  obtain ⟨j, hj, hmax, hstrict⟩ := exists_earliest_argmax ms hne
  refine ⟨j, hj, ?_, hmax, hstrict⟩
  cases ms with
  | nil => exact absurd rfl hne
  | cons m rest =>
    rw [show bestFoldFrom i none (m :: rest)
        = bestFoldFrom (i + 1)
          (updateBest i m (check_quality_gates m).1 none) rest from rfl]
    rw [hfail m (List.mem_cons_self _ _)]
    rw [show updateBest i m false none = some (i, m) from rfl]
    have hfr : ∀ m2 ∈ rest, (check_quality_gates m2).1 = false :=
      fun m2 h2 => hfail m2 (List.mem_cons_of_mem _ h2)
    cases j with
    | zero =>
      rw [((bestFoldFrom_some_spec rest hfr) (i + 1) i m).1 (fun t ht => by
        have := hmax (t + 1) (by simpa using ht)
        simpa using this)]
      simp
    | succ j2 =>
      have hj2 : j2 < rest.length := by simpa using hj
      rw [((bestFoldFrom_some_spec rest hfr) (i + 1) i m).2 j2 hj2
        (by have := hstrict 0 (by omega); simpa using this)
        (fun t ht => by
          have := hmax (t + 1) (by simpa using ht)
          simpa using this)
        (fun t ht => by
          have := hstrict (t + 1) (by omega)
          simpa using this)]
      simp only [List.getD_cons_succ]
      rw [show i + 1 + j2 = i + (j2 + 1) from by omega]

theorem exists_first_pass (ms : List (QualityMetrics ℚ))
    (hex : ¬ ∀ m ∈ ms, (check_quality_gates m).1 = false) :
    ∃ pre p rest, ms = pre ++ p :: rest ∧
      (∀ m ∈ pre, (check_quality_gates m).1 = false) ∧
      (check_quality_gates p).1 = true := by
  induction ms with
  | nil => exact absurd (by simp) hex
  | cons m rest ih =>
    by_cases hm : (check_quality_gates m).1 = true
    · exact ⟨[], m, rest, rfl, by simp, hm⟩
    · have hm2 : (check_quality_gates m).1 = false := by
        cases h : (check_quality_gates m).1
        · rfl
        · exact absurd h hm
      have hex2 : ¬ ∀ m2 ∈ rest, (check_quality_gates m2).1 = false := by
        intro hall
        apply hex
        intro m2 h2
        rcases List.mem_cons.mp h2 with rfl | h2
        · exact hm2
        · exact hall m2 h2
      obtain ⟨pre, p, rest2, heq, hpre, hp⟩ := ih hex2
      refine ⟨m :: pre, p, rest2, by rw [heq]; rfl, ?_, hp⟩
      intro m2 h2
      rcases List.mem_cons.mp h2 with rfl | h2
      · exact hm2
      · exact hpre m2 h2

theorem getD_append_length {α : Type} [Inhabited α] (pre : List α) (p : α)
    (rest : List α) : (pre ++ p :: rest).getD pre.length default = p := by
  induction pre with
  | nil => rfl
  | cons x xs ih => simpa using ih

theorem getD_append_lt {α : Type} [Inhabited α] (pre : List α) (p : α)
    (rest : List α) (t : ℕ) (ht : t < pre.length) :
    (pre ++ p :: rest).getD t default = pre.getD t default := by
  induction pre generalizing t with
  | nil => simp at ht
  | cons x xs ih =>
    cases t with
    | zero => rfl
    | succ t2 => simpa using ih t2 (by simpa using ht)

theorem getD_mem_of_lt {α : Type} [Inhabited α] (l : List α) (t : ℕ)
    (ht : t < l.length) : l.getD t default ∈ l := by
  induction l generalizing t with
  | nil => simp at ht
  | cons x xs ih =>
    cases t with
    | zero => exact List.mem_cons_self _ _
    | succ t2 =>
      rw [List.getD_cons_succ]
      exact List.mem_cons_of_mem _ (ih t2 (by simpa using ht))

/-- C1: over the ordered candidate list (every trial evaluable, list no
longer than max_iterations), the controller selects the first trial that
passes all quality gates and attempts no further trial after it (the log
stops right there); if no trial passes, it exhausts the list and selects
the trial with the strictly highest stored silhouette score, ties resolved
to the earliest trial index. -/
theorem mainSearch_selection (maxIter : ℕ) (ms : List (QualityMetrics ℚ))
    (hne : ms ≠ []) (hlen : ms.length ≤ maxIter) :
    ∃ log best, mainSearch maxIter (ms.map Except.ok) = Except.ok (log, some best) ∧
      ((∃ j, j < ms.length ∧ (check_quality_gates (ms.getD j default)).1 = true ∧
        (∀ t, t < j → (check_quality_gates (ms.getD t default)).1 = false) ∧
        best = (j, ms.getD j default) ∧ log.length = j + 1)
       ∨ ((∀ m ∈ ms, (check_quality_gates m).1 = false) ∧ log.length = ms.length ∧
          ∃ j, j < ms.length ∧ best = (j, ms.getD j default) ∧
          (∀ t, t < ms.length → (ms.getD t default).silhouette_score ≤
            (ms.getD j default).silhouette_score) ∧
          (∀ t, t < j → (ms.getD t default).silhouette_score <
            (ms.getD j default).silhouette_score))) := by
  by_cases hall : ∀ m ∈ ms, (check_quality_gates m).1 = false
  · obtain ⟨j, hj, hbf, hmax, hstrict⟩ := bestFoldFrom_none_spec ms hne hall 0
    rw [Nat.zero_add] at hbf
    refine ⟨logsFrom 0 ms, (j, ms.getD j default), ?_,
      Or.inr ⟨hall, logsFrom_length ms 0, j, hj, rfl, hmax, hstrict⟩⟩
    rw [mainSearch, searchGo_no_pass maxIter ms hall 0 none [] (by omega)]
    rw [List.nil_append, hbf]
  · obtain ⟨pre, p, rest, heq, hpre, hp⟩ := exists_first_pass ms hall
    subst heq
    have hplen : pre.length < (pre ++ p :: rest).length := by simp
    refine ⟨logsFrom 0 (pre ++ [p]), (pre.length, p), ?_,
      Or.inl ⟨pre.length, hplen, ?_, ?_, ?_, ?_⟩⟩
    · rw [mainSearch, searchGo_first_pass maxIter pre p rest hpre hp 0 none [] (by
        simp only [List.length_append, List.length_cons] at hlen
        omega)]
      rw [List.nil_append, Nat.zero_add]
    · rw [getD_append_length]
      exact hp
    · intro t ht
      rw [getD_append_lt pre p rest t ht]
      exact hpre _ (getD_mem_of_lt pre t ht)
    · rw [getD_append_length]
    · rw [logsFrom_length]
      simp

/-- Witness for mainSearch_selection: a failing first trial and a passing
second trial. -/
theorem mainSearch_selection_witness :
    (([failMetrics, passMetrics] : List (QualityMetrics ℚ)) ≠ []) ∧
    (([failMetrics, passMetrics] : List (QualityMetrics ℚ)).length ≤ 3) ∧
    (∃ log best, mainSearch 3 (([failMetrics, passMetrics] : List (QualityMetrics ℚ)).map
          Except.ok) = Except.ok (log, some best) ∧
      ((∃ j, j < ([failMetrics, passMetrics] : List (QualityMetrics ℚ)).length ∧
        (check_quality_gates (([failMetrics, passMetrics] :
          List (QualityMetrics ℚ)).getD j default)).1 = true ∧
        (∀ t, t < j → (check_quality_gates (([failMetrics, passMetrics] :
          List (QualityMetrics ℚ)).getD t default)).1 = false) ∧
        best = (j, ([failMetrics, passMetrics] :
          List (QualityMetrics ℚ)).getD j default) ∧ log.length = j + 1)
       ∨ ((∀ m ∈ ([failMetrics, passMetrics] : List (QualityMetrics ℚ)),
            (check_quality_gates m).1 = false) ∧
          log.length = ([failMetrics, passMetrics] :
            List (QualityMetrics ℚ)).length ∧
          ∃ j, j < ([failMetrics, passMetrics] : List (QualityMetrics ℚ)).length ∧
          best = (j, ([failMetrics, passMetrics] :
            List (QualityMetrics ℚ)).getD j default) ∧
          (∀ t, t < ([failMetrics, passMetrics] : List (QualityMetrics ℚ)).length →
            (([failMetrics, passMetrics] : List (QualityMetrics ℚ)).getD t
              default).silhouette_score ≤
            (([failMetrics, passMetrics] : List (QualityMetrics ℚ)).getD j
              default).silhouette_score) ∧
          (∀ t, t < j →
            (([failMetrics, passMetrics] : List (QualityMetrics ℚ)).getD t
              default).silhouette_score <
            (([failMetrics, passMetrics] : List (QualityMetrics ℚ)).getD j
              default).silhouette_score)))) :=
  ⟨by decide, by decide, mainSearch_selection 3 _ (by decide) (by decide)⟩
